import Mathlib

/-!
Verification of the concurrent directory walker (`ConcurrentWalker` in the
`file` package of the go-aj repository).

The Go code is shallowly embedded as follows.

* A directory tree is the inductive `FNode`.  Fault-injection flags on each
  node model the three per-node failure points of the code: `entry.Info()`
  failing (`infoFail`) and `workerReadDir` failing (`readFail`); a failing
  exclusion predicate is modelled by the predicate returning `none`.
* The two excluders (`dirExcluder.Match`, `fileExcluder.Match`) are modelled
  as functions `String → Option Bool`: `some b` is the Go return `(b, nil)`,
  `none` is a non-nil error.
* The body of `ConcurrentWalker.walk` up to its first channel effect is the
  pure function `runNode`; the whole concurrent system (one goroutine per
  node, the buffered channels `pathInfoCh` and `errorCh`, the consumer loop
  `process`, and the `wg.Wait`/`close(pathInfoCh)` monitor goroutine) is the
  transition system `Step` on `MState`, whose nondeterminism covers every
  interleaving the Go scheduler may produce for a non-cancelled walk.
* The synchronous prefix of `StartWalking` is the pure function
  `startWalking`, the select body of `process` is `processStep`, and the
  semaphore-gated `workerReadDir` is modelled by `workerReadDir` together
  with the counting-semaphore transition system `SemStep`.
-/

namespace GoAJ
namespace File

/-- Kind of a per-node walk error, matching the three sites in
`ConcurrentWalker.walk` that send on `errorCh`, plus nothing else. -/
inductive EKind where
  | info      -- "failure getting info for a path ..."
  | exclCheck -- "failure checking if directory/file needs to be excluded ..."
  | readDir   -- error returned by workerReadDir
deriving DecidableEq, Repr

/-- A value sent on `errorCh`: the Go code sends a formatted error that
embeds the path; we keep the path and the failure site. -/
structure WErr where
  kind : EKind
  path : String
deriving DecidableEq, Repr

/-- A file-system tree node.  `infoFail` injects a failure of
`entry.Info()`; for directories `readFail` injects a failure of
`workerReadDir`.  Children carry their own names, as `fs.DirEntry.Name`
does. -/
inductive FNode where
  | file (name : String) (infoFail : Bool)
  | dir (name : String) (infoFail : Bool) (readFail : Bool) (children : List FNode)
deriving Repr

/-- The name of a node (`fs.DirEntry.Name`). -/
def FNode.name : FNode → String
  | .file n _ => n
  | .dir n _ _ _ => n

/-- `fs.DirEntry.IsDir`. -/
def FNode.isDir : FNode → Bool
  | .file _ _ => false
  | .dir _ _ _ _ => true

/-- Whether `entry.Info()` fails for this node. -/
def FNode.infoFail : FNode → Bool
  | .file _ f => f
  | .dir _ f _ _ => f

/-- `path.Join(dir, child.Name())` as used in `walk` when spawning child
tasks.  Go's `path.Join` additionally cleans the result lexically; no claim
depends on the cleaning, and child names coming from `ReadDir` are plain
base names, so concatenation with a single separator is faithful here. -/
def pjoin (dir name : String) : String := dir ++ "/" ++ name

/-! ### The default excluders (`NewConcurrentWalker`) -/

/-- Drop trailing path separators, as the first loop of Go's
`filepath.Base` does. -/
def dropTrailingSep (cs : List Char) : List Char :=
  ((cs.reverse.dropWhile (fun c => c = '/')).reverse)

/-- The suffix after the last separator, as the `lastIndex` step of Go's
`filepath.Base` computes. -/
def afterLastSep (cs : List Char) : List Char :=
  ((cs.reverse.takeWhile (fun c => c ≠ '/')).reverse)

/-- Go's `filepath.Base` on a Unix path: empty input gives ".", trailing
separators are dropped, everything up to the last separator is dropped, and
an all-separator path gives "/". -/
def filepathBase (p : String) : String :=
  if p = "" then "."
  else
    let cs := afterLastSep (dropTrailingSep p.data)
    if cs = [] then "/" else String.mk cs

/-- `DefaultDirExcluder.Match` (walker_unix.go): excludes exactly "/dev"
and "/proc", never returns an error. -/
def defaultDirExcluderMatch (p : String) : Option Bool :=
  if p = "/dev" then some true
  else if p = "/proc" then some true
  else some false

/-- `DefaultFileExcluder.Match`: excludes exactly the paths whose
`filepath.Base` is ".DS_Store", never returns an error. -/
def defaultFileExcluderMatch (p : String) : Option Bool :=
  if filepathBase p = ".DS_Store" then some true else some false

/-- The pair of excluders carried by a walker instance. -/
structure WalkCfg where
  dirEx : String → Option Bool
  fileEx : String → Option Bool

/-- The excluder configuration installed by `NewConcurrentWalker`. -/
def newConcurrentWalkerCfg : WalkCfg :=
  { dirEx := defaultDirExcluderMatch, fileEx := defaultFileExcluderMatch }

/-! ### The per-node part of `ConcurrentWalker.walk` -/

/-- What a single `walk` goroutine does for its node, up to and including
the decision taken before touching the channels. -/
inductive Outcome where
  | err (e : WErr)                  -- sent on errorCh, no publish, no recursion
  | excluded                        -- silent return: no publish, no error, no recursion
  | pubFile                         -- publish the entry; node is a file, stop
  | pubDirFail (e : WErr)           -- publish the entry; workerReadDir fails, error sent
  | pubDir (children : List FNode)  -- publish the entry; spawn one task per child
deriving Repr

/-- The control flow of `ConcurrentWalker.walk` for one node: resolve info,
consult the applicable excluder, publish, and for directories read the
children. -/
def runNode (cfg : WalkCfg) (p : String) : FNode → Outcome
  | .file _ infoF =>
    if infoF then .err ⟨.info, p⟩
    else
      match cfg.fileEx p with
      | none => .err ⟨.exclCheck, p⟩
      | some true => .excluded
      | some false => .pubFile
  | .dir _ infoF readF cs =>
    if infoF then .err ⟨.info, p⟩
    else
      match cfg.dirEx p with
      | none => .err ⟨.exclCheck, p⟩
      | some true => .excluded
      | some false => if readF then .pubDirFail ⟨.readDir, p⟩ else .pubDir cs

/-! ### Deterministic per-walk outcome multisets

Faults and exclusions are functions of the node and its path alone, so the
multiset of entries a walk publishes and the multiset of errors it produces
are the same in every interleaving; they are computed by recursion on the
tree. -/

mutual

/-- The multiset of paths published on `pathInfoCh` by the task tree rooted
at path `p`, node `n`. -/
def pubPaths (cfg : WalkCfg) (p : String) : FNode → Multiset String
  | .file _ infoF =>
    if infoF then 0
    else
      match cfg.fileEx p with
      | none => 0
      | some true => 0
      | some false => {p}
  | .dir _ infoF readF cs =>
    if infoF then 0
    else
      match cfg.dirEx p with
      | none => 0
      | some true => 0
      | some false => if readF then {p} else p ::ₘ pubPathsList cfg p cs

/-- `pubPaths` summed over the children of a directory at path `p`. -/
def pubPathsList (cfg : WalkCfg) (p : String) : List FNode → Multiset String
  | [] => 0
  | c :: cs => pubPaths cfg (pjoin p c.name) c + pubPathsList cfg p cs

end

mutual

/-- The multiset of errors sent on `errorCh` by the task tree rooted at
path `p`, node `n`. -/
def errPaths (cfg : WalkCfg) (p : String) : FNode → Multiset WErr
  | .file _ infoF =>
    if infoF then {(⟨.info, p⟩ : WErr)}
    else
      match cfg.fileEx p with
      | none => {(⟨.exclCheck, p⟩ : WErr)}
      | some true => 0
      | some false => 0
  | .dir _ infoF readF cs =>
    if infoF then {(⟨.info, p⟩ : WErr)}
    else
      match cfg.dirEx p with
      | none => {(⟨.exclCheck, p⟩ : WErr)}
      | some true => 0
      | some false => if readF then {(⟨.readDir, p⟩ : WErr)} else errPathsList cfg p cs

/-- `errPaths` summed over the children of a directory at path `p`. -/
def errPathsList (cfg : WalkCfg) (p : String) : List FNode → Multiset WErr
  | [] => 0
  | c :: cs => errPaths cfg (pjoin p c.name) c + errPathsList cfg p cs

end

mutual

/-- A standard single-threaded recursive walk of the tree: the root first,
then each subtree in order.  This is the reference walk of the completeness
property. -/
def seqWalk (p : String) : FNode → List String
  | .file _ _ => [p]
  | .dir _ _ _ cs => p :: seqWalkList p cs

/-- `seqWalk` concatenated over the children of a directory at path `p`. -/
def seqWalkList (p : String) : List FNode → List String
  | [] => []
  | c :: cs => seqWalk (pjoin p c.name) c ++ seqWalkList p cs

end

mutual

/-- True when no fault is injected anywhere in the tree. -/
def faultFree : FNode → Bool
  | .file _ infoF => !infoF
  | .dir _ infoF readF cs => !infoF && !readF && faultFreeList cs

/-- `faultFree` over a list of children. -/
def faultFreeList : List FNode → Bool
  | [] => true
  | c :: cs => faultFree c && faultFreeList cs

end

/-! ### The concurrent walk as a transition system

One `Task` per `walk` goroutine.  `origin` records the path of the parent
whose goroutine spawned this task (`none` for the root task spawned by
`StartWalking`); it is ghost information used to state the causal publish
order.  `pubs` is the publish history of `pathInfoCh` (ghost, in send
order); `visited` is the sequence of `walkFunc` invocations by the consumer
loop; `sink` is what `process` wrote to `errorWriter`.

A task's whole body runs as one step: its only effects are appends to the
channels and spawning children, so splitting it into smaller steps would
not change any reachable configuration of the queues, the histories or the
flags.  Channel capacities are not modelled: this only enlarges the set of
interleavings, so invariants proved here hold for the real system, and the
concrete executions exhibited below keep each queue within its real
capacity.  The parent context is assumed not cancelled (the claims under
consideration concern non-cancelled walks), so the `ctx.Done()` branch of
`process` never fires. -/

/-- One `walk` goroutine: its path, its directory entry, and (ghost) the
path of the parent that spawned it. -/
structure Task where
  path : String
  node : FNode
  origin : Option String

/-- A configuration of the whole walker: pending goroutines, channel
contents, publish history, consumer effects, and the done flag. -/
structure MState where
  tasks : Multiset Task
  pathQ : List String
  errQ : List WErr
  pubs : List (String × Option String)
  visited : List String
  sink : List WErr
  hadErrors : Bool
  done : Bool

/-- The configuration right after `StartWalking` succeeded: one task for
the root, empty channels, `hadErrors` freshly reset to false. -/
def initState (root : String) (t : FNode) : MState :=
  { tasks := {⟨root, t, none⟩}, pathQ := [], errQ := [], pubs := [],
    visited := [], sink := [], hadErrors := false, done := false }

/-- The tasks spawned for the children of the directory at path `p`:
`go w.walk(path.Join(dir, child.Name()), child)` for each child. -/
def spawnTasks (p : String) (cs : List FNode) : Multiset Task :=
  ↑(cs.map fun c => (⟨pjoin p c.name, c, some p⟩ : Task))

/-- One scheduler step of the walker.

Task steps run a whole `walk` goroutine body; `visit` and `errRecv` are the
two productive branches of the consumer's `select`; `finish` is the
consumer observing `pathInfoCh` closed and drained (possible exactly when
all goroutines have finished, because the monitor goroutine closes
`pathInfoCh` after `wg.Wait()`), which breaks the loop and runs
`signalDone` — Go's `select` chooses among ready cases at random, so
`finish` is enabled even while `errorCh` still holds errors. -/
inductive Step (cfg : WalkCfg) : MState → MState → Prop where
  | taskErr (s : MState) (tk : Task) (rest : Multiset Task) (e : WErr)
      (htk : s.tasks = tk ::ₘ rest)
      (hrun : runNode cfg tk.path tk.node = .err e) :
      Step cfg s { s with tasks := rest, errQ := s.errQ ++ [e] }
  | taskExcluded (s : MState) (tk : Task) (rest : Multiset Task)
      (htk : s.tasks = tk ::ₘ rest)
      (hrun : runNode cfg tk.path tk.node = .excluded) :
      Step cfg s { s with tasks := rest }
  | taskPubFile (s : MState) (tk : Task) (rest : Multiset Task)
      (htk : s.tasks = tk ::ₘ rest)
      (hrun : runNode cfg tk.path tk.node = .pubFile) :
      Step cfg s { s with tasks := rest, pathQ := s.pathQ ++ [tk.path],
                          pubs := s.pubs ++ [(tk.path, tk.origin)] }
  | taskPubDirFail (s : MState) (tk : Task) (rest : Multiset Task) (e : WErr)
      (htk : s.tasks = tk ::ₘ rest)
      (hrun : runNode cfg tk.path tk.node = .pubDirFail e) :
      Step cfg s { s with tasks := rest, pathQ := s.pathQ ++ [tk.path],
                          pubs := s.pubs ++ [(tk.path, tk.origin)],
                          errQ := s.errQ ++ [e] }
  | taskPubDir (s : MState) (tk : Task) (rest : Multiset Task) (cs : List FNode)
      (htk : s.tasks = tk ::ₘ rest)
      (hrun : runNode cfg tk.path tk.node = .pubDir cs) :
      Step cfg s { s with tasks := rest + spawnTasks tk.path cs,
                          pathQ := s.pathQ ++ [tk.path],
                          pubs := s.pubs ++ [(tk.path, tk.origin)] }
  | visit (s : MState) (p : String) (q : List String)
      (hq : s.pathQ = p :: q) (hd : s.done = false) :
      Step cfg s { s with pathQ := q, visited := s.visited ++ [p] }
  | errRecv (s : MState) (e : WErr) (q : List WErr)
      (hq : s.errQ = e :: q) (hd : s.done = false) :
      Step cfg s { s with errQ := q, sink := s.sink ++ [e], hadErrors := true }
  | finish (s : MState)
      (ht : s.tasks = 0) (hq : s.pathQ = []) (hd : s.done = false) :
      Step cfg s { s with done := true }

/-- Reachability under the walker's scheduler. -/
def Reach (cfg : WalkCfg) : MState → MState → Prop :=
  Relation.ReflTransGen (Step cfg)

/-! ### The body of the consumer loop (`ConcurrentWalker.process`) -/

/-- The consumer-visible state manipulated by one iteration of `process`. -/
structure ProcState where
  hadErrors : Bool
  sink : List WErr
  visited : List String
  broke : Bool
deriving Repr

/-- The three events one `select` iteration of `process` can receive:
context cancellation, a receive from `pathInfoCh` (with the channel-closed
flag), or a receive from `errorCh`. -/
inductive ProcEvent where
  | ctxDone
  | pathInfo (p : String) (ok : Bool)
  | errEvent (e : WErr)

/-- One iteration of the `select` in `process`.  `walkFunc` models the
visitor; `some msg` is a non-nil error return.  The code calls
`w.walkFunc(info.path, info.entry, info.fileInfo)` as a bare statement, so
the returned value is evaluated and dropped. -/
def processStep (walkFunc : String → Option String) (s : ProcState) :
    ProcEvent → ProcState
  | .ctxDone => { s with broke := true }
  | .pathInfo p ok =>
    if ok then
      let _discarded := walkFunc p
      { s with visited := s.visited ++ [p] }
    else { s with broke := true }
  | .errEvent _e =>
    { s with hadErrors := true, sink := s.sink ++ [_e] }

/-! ### The synchronous prefix of `StartWalking` -/

/-- The fields of `ConcurrentWalker` that the synchronous prefix of
`StartWalking` reads or writes (`walkFunc` is set alongside `root` and
carries no further information for these claims). -/
structure WalkerSt where
  root : String
  inProgress : Bool
  hadErrors : Bool
deriving DecidableEq, Repr

/-- The OS facilities `StartWalking` consults: whether `os.Lstat`
succeeds on a path, and the result of `syscall.Getrlimit(RLIMIT_NOFILE)`
(`none` when the call fails, otherwise the current soft limit). -/
structure StartEnv where
  lstatOk : String → Bool
  rlimitCur : Option Nat

/-- The four return sites of `StartWalking`, in source order:
`(nil, nil, err)` for the re-entrancy guard, `(nil, cancel, err)` for a
failed `Lstat`, `(nil, cancel, err)` for a failed `Getrlimit`, and
`(doneCh, cancel, nil)` on success (recording the semaphore capacity). -/
inductive StartResult where
  | errInProgress
  | errLstat
  | errRlimit
  | ok (capacity : Nat)
deriving DecidableEq, Repr

/-- The synchronous prefix of `StartWalking`: the re-entrancy check, the
field assignments, the `Lstat`, the `Getrlimit`, and the capacity
computation, in source order.  Returns the walker state as left behind
together with the taken return site. -/
def startWalking (env : StartEnv) (w : WalkerSt) (root : String) :
    WalkerSt × StartResult :=
  if w.inProgress then (w, .errInProgress)
  else
    let w1 : WalkerSt := { root := root, inProgress := true, hadErrors := false }
    if env.lstatOk root = false then (w1, .errLstat)
    else
      match env.rlimitCur with
      | none => (w1, .errRlimit)
      | some cur => (w1, .ok (min 1024 cur))

/-- Whether the done channel returned at this return site is nil. -/
def doneChanNil : StartResult → Bool
  | .errInProgress => true
  | .errLstat => true
  | .errRlimit => true
  | .ok _ => false

/-- Whether the cancel function returned at this return site is nil. -/
def cancelNil : StartResult → Bool
  | .errInProgress => true
  | .errLstat => false
  | .errRlimit => false
  | .ok _ => false

/-! ### The bounded directory reader (`workerReadDir`) and its semaphore -/

/-- `maxActiveWorkers := min(uint64(1024), rlimit.Cur)` from
`StartWalking`. -/
def maxActiveWorkers (rlimitCur : Nat) : Nat := min 1024 rlimitCur

/-- Acquiring a slot of the counting semaphore `workerSemaCh` (a buffered
channel of capacity `cap`): the send completes only while fewer than `cap`
slots are held. -/
def semAcquire (capacity held : Nat) : Option Nat :=
  if held < capacity then some (held + 1) else none

/-- Releasing a slot (the deferred receive). -/
def semRelease (held : Nat) : Nat := held - 1

/-- `workerReadDir`: acquire a slot, open the directory, read all entries,
and release the slot via the deferred receive on every exit path.  `openOk`
and `readOk` are the outcomes of `os.Open` and `f.ReadDir(-1)`; the result
is `none` while the acquire still blocks, otherwise the function's return
value paired with the semaphore count after the deferred release ran. -/
def workerReadDir (capacity held : Nat) (openOk readOk : Bool)
    (entries : List FNode) : Option (Except WErr (List FNode) × Nat) :=
  match semAcquire capacity held with
  | none => none
  | some h1 =>
    if openOk = false then some (.error ⟨.readDir, "open"⟩, semRelease h1)
    else if readOk = false then some (.error ⟨.readDir, "readdir"⟩, semRelease h1)
    else some (.ok entries, semRelease h1)

/-- A population of directory-read operations: how many have not yet
reached the semaphore acquire, how many are past the acquire and before the
deferred release (directory open through read completion), and how many
have finished. -/
structure SemMState where
  waiting : Nat
  inside : Nat
  finished : Nat
deriving DecidableEq, Repr

/-- Transitions of the read population: a read enters the gated section
only when its acquire — a send on the capacity-`cap` channel — can
complete, and any read inside may finish, releasing its slot. -/
inductive SemStep (capacity : Nat) : SemMState → SemMState → Prop where
  | enter (s : SemMState) (hw : 0 < s.waiting) (hc : s.inside < capacity) :
      SemStep capacity s ⟨s.waiting - 1, s.inside + 1, s.finished⟩
  | leave (s : SemMState) (hi : 0 < s.inside) :
      SemStep capacity s ⟨s.waiting, s.inside - 1, s.finished + 1⟩

/-- Reachability of read populations. -/
def SemReach (capacity : Nat) : SemMState → SemMState → Prop :=
  Relation.ReflTransGen (SemStep capacity)

/-- The publishes still owed by a set of pending tasks. -/
def tasksPub (cfg : WalkCfg) (ts : Multiset Task) : Multiset String :=
  (ts.map fun tk => pubPaths cfg tk.path tk.node).sum

/-- The errors still owed by a set of pending tasks. -/
def tasksErr (cfg : WalkCfg) (ts : Multiset Task) : Multiset WErr :=
  (ts.map fun tk => errPaths cfg tk.path tk.node).sum

/-- The inductive invariant of the machine for a walk started at `root`
over the tree `t`: conservation of publishes and of errors, the meaning of
the had-errors flag, emptiness at completion, the identification of the
publish history with the consumer's view of `pathInfoCh`, and the causal
publish order. -/
structure Inv (cfg : WalkCfg) (root : String) (t : FNode) (s : MState) : Prop where
  pubCons : ((s.visited : Multiset String) + ↑s.pathQ) + tasksPub cfg s.tasks
      = pubPaths cfg root t
  errCons : ((s.sink : Multiset WErr) + ↑s.errQ) + tasksErr cfg s.tasks
      = errPaths cfg root t
  hadIff : s.hadErrors = true ↔ s.sink ≠ []
  doneEmpty : s.done = true → s.tasks = 0 ∧ s.pathQ = []
  pubLink : s.pubs.map Prod.fst = s.visited ++ s.pathQ
  taskOrigin : ∀ tk ∈ s.tasks, ∀ pp, tk.origin = some pp → ∃ q ∈ s.pubs, q.1 = pp
  causal : ∀ i : Fin s.pubs.length, ∀ pp, (s.pubs.get i).2 = some pp →
      ∃ j : Fin s.pubs.length, (j : ℕ) < (i : ℕ) ∧ (s.pubs.get j).1 = pp

/-! ### Concrete walks

Small walks with explicitly scheduled executions; every scheduling choice
taken below is one the Go runtime can take, and every queue stays within
the corresponding channel's real capacity. -/

/-- An excluder pair that excludes nothing. -/
def noExcludeCfg : WalkCfg := ⟨fun _ => some false, fun _ => some false⟩

/-- A directory containing one file, no faults injected. -/
def exTree1 : FNode := .dir "r" false false [.file "a" false]

/-- The completed configuration of a walk of `exTree1`. -/
def exFinal1 : MState :=
  { tasks := 0, pathQ := [], errQ := [],
    pubs := [("r", none), (pjoin "r" "a", some "r")],
    visited := ["r", pjoin "r" "a"], sink := [], hadErrors := false, done := true }

/-- An excluder pair whose directory excluder returns an error on every
path. -/
def errCheckCfg : WalkCfg := ⟨fun _ => none, fun _ => some false⟩

/-- A single directory, no faults beyond the failing excluder. -/
def errTree : FNode := .dir "r" false false []

/-- A completed configuration of the walk of `errTree` in which the final
select of the consumer took the closed-results-channel branch while the
node's error was still buffered in `errorCh`. -/
def lostErrFinal : MState :=
  { tasks := 0, pathQ := [], errQ := [⟨.exclCheck, "r"⟩], pubs := [],
    visited := [], sink := [], hadErrors := false, done := true }

/-- A directory named like the device pseudo-filesystem root, walked as the
root path "/dev" with the default excluders of `NewConcurrentWalker`. -/
def devTree : FNode := .dir "dev" false false []

/-- The completed configuration of the walk rooted at "/dev": nothing was
published and nothing was visited. -/
def rootExcludedFinal : MState :=
  { tasks := 0, pathQ := [], errQ := [], pubs := [], visited := [], sink := [],
    hadErrors := false, done := true }

/-- A walker with no walk in progress. -/
def idleWalker : WalkerSt := { root := "", inProgress := false, hadErrors := false }

/-- A walker in the middle of a walk. -/
def busyWalker : WalkerSt := { root := "/busy", inProgress := true, hadErrors := false }

/-- An environment in which `os.Lstat` fails on every path. -/
def envBadRoot : StartEnv := { lstatOk := fun _ => false, rlimitCur := some 4096 }

/-- An environment in which everything succeeds. -/
def envGood : StartEnv := { lstatOk := fun _ => true, rlimitCur := some 4096 }

/-- An environment in which `syscall.Getrlimit` fails. -/
def envNoRlimit : StartEnv := { lstatOk := fun _ => true, rlimitCur := none }

/-! ### Effects of one task, by outcome -/

theorem tasksPub_cons (cfg : WalkCfg) (tk : Task) (ts : Multiset Task) :
    tasksPub cfg (tk ::ₘ ts) = pubPaths cfg tk.path tk.node + tasksPub cfg ts := by
  simp [tasksPub]

theorem tasksErr_cons (cfg : WalkCfg) (tk : Task) (ts : Multiset Task) :
    tasksErr cfg (tk ::ₘ ts) = errPaths cfg tk.path tk.node + tasksErr cfg ts := by
  simp [tasksErr]

theorem tasksPub_add (cfg : WalkCfg) (a b : Multiset Task) :
    tasksPub cfg (a + b) = tasksPub cfg a + tasksPub cfg b := by
  simp [tasksPub]

theorem tasksErr_add (cfg : WalkCfg) (a b : Multiset Task) :
    tasksErr cfg (a + b) = tasksErr cfg a + tasksErr cfg b := by
  simp [tasksErr]

theorem tasksPub_spawn (cfg : WalkCfg) (p : String) (cs : List FNode) :
    tasksPub cfg (spawnTasks p cs) = pubPathsList cfg p cs := by
  induction cs with
  | nil => simp [spawnTasks, tasksPub, pubPathsList]
  | cons c cs ih =>
    simp only [spawnTasks, List.map_cons] at ih ⊢
    rw [← Multiset.cons_coe, tasksPub_cons, ih, pubPathsList]

theorem tasksErr_spawn (cfg : WalkCfg) (p : String) (cs : List FNode) :
    tasksErr cfg (spawnTasks p cs) = errPathsList cfg p cs := by
  induction cs with
  | nil => simp [spawnTasks, tasksErr, errPathsList]
  | cons c cs ih =>
    simp only [spawnTasks, List.map_cons] at ih ⊢
    rw [← Multiset.cons_coe, tasksErr_cons, ih, errPathsList]

theorem runNode_err_effects (cfg : WalkCfg) (p : String) (n : FNode) (e : WErr)
    (h : runNode cfg p n = .err e) :
    pubPaths cfg p n = 0 ∧ errPaths cfg p n = {e} := by
  cases n with
  | file nm infoF =>
    cases infoF
    · rcases hfe : cfg.fileEx p with _ | b
      · simp [runNode, hfe] at h
        simp [pubPaths, errPaths, hfe, h]
      · cases b <;> simp [runNode, hfe] at h
    · simp [runNode] at h
      simp [pubPaths, errPaths, h]
  | dir nm infoF readF cs =>
    cases infoF
    · rcases hde : cfg.dirEx p with _ | b
      · simp [runNode, hde] at h
        simp [pubPaths, errPaths, hde, h]
      · cases b
        · cases readF <;> simp [runNode, hde] at h
        · simp [runNode, hde] at h
    · simp [runNode] at h
      simp [pubPaths, errPaths, h]

theorem runNode_excluded_effects (cfg : WalkCfg) (p : String) (n : FNode)
    (h : runNode cfg p n = .excluded) :
    pubPaths cfg p n = 0 ∧ errPaths cfg p n = 0 := by
  cases n with
  | file nm infoF =>
    cases infoF
    · rcases hfe : cfg.fileEx p with _ | b
      · simp [runNode, hfe] at h
      · cases b
        · simp [runNode, hfe] at h
        · simp [runNode, hfe] at h
          simp [pubPaths, errPaths, hfe]
    · simp [runNode] at h
  | dir nm infoF readF cs =>
    cases infoF
    · rcases hde : cfg.dirEx p with _ | b
      · simp [runNode, hde] at h
      · cases b
        · cases readF <;> simp [runNode, hde] at h
        · simp [runNode, hde] at h
          simp [pubPaths, errPaths, hde]
    · simp [runNode] at h

theorem runNode_pubFile_effects (cfg : WalkCfg) (p : String) (n : FNode)
    (h : runNode cfg p n = .pubFile) :
    pubPaths cfg p n = {p} ∧ errPaths cfg p n = 0 := by
  cases n with
  | file nm infoF =>
    cases infoF
    · rcases hfe : cfg.fileEx p with _ | b
      · simp [runNode, hfe] at h
      · cases b
        · simp [runNode, hfe] at h
          simp [pubPaths, errPaths, hfe]
        · simp [runNode, hfe] at h
    · simp [runNode] at h
  | dir nm infoF readF cs =>
    cases infoF
    · rcases hde : cfg.dirEx p with _ | b
      · simp [runNode, hde] at h
      · cases b
        · cases readF <;> simp [runNode, hde] at h
        · simp [runNode, hde] at h
    · simp [runNode] at h

theorem runNode_pubDirFail_effects (cfg : WalkCfg) (p : String) (n : FNode)
    (e : WErr) (h : runNode cfg p n = .pubDirFail e) :
    pubPaths cfg p n = {p} ∧ errPaths cfg p n = {e} := by
  cases n with
  | file nm infoF =>
    cases infoF
    · rcases hfe : cfg.fileEx p with _ | b
      · simp [runNode, hfe] at h
      · cases b <;> simp [runNode, hfe] at h
    · simp [runNode] at h
  | dir nm infoF readF cs =>
    cases infoF
    · rcases hde : cfg.dirEx p with _ | b
      · simp [runNode, hde] at h
      · cases b
        · cases readF <;> simp [runNode, hde] at h
          simp [pubPaths, errPaths, hde, h]
        · simp [runNode, hde] at h
    · simp [runNode] at h

theorem runNode_pubDir_effects (cfg : WalkCfg) (p : String) (n : FNode)
    (cs : List FNode) (h : runNode cfg p n = .pubDir cs) :
    pubPaths cfg p n = p ::ₘ pubPathsList cfg p cs ∧
      errPaths cfg p n = errPathsList cfg p cs := by
  cases n with
  | file nm infoF =>
    cases infoF
    · rcases hfe : cfg.fileEx p with _ | b
      · simp [runNode, hfe] at h
      · cases b <;> simp [runNode, hfe] at h
    · simp [runNode] at h
  | dir nm infoF readF cs0 =>
    cases infoF
    · rcases hde : cfg.dirEx p with _ | b
      · simp [runNode, hde] at h
      · cases b
        · cases readF
          · simp [runNode, hde] at h
            simp [pubPaths, errPaths, hde, h]
          · simp [runNode, hde] at h
        · simp [runNode, hde] at h
    · simp [runNode] at h

/-! ### The inductive invariant of the walker machine -/

theorem spawnTasks_origin (p : String) (cs : List FNode) (tk : Task)
    (h : tk ∈ spawnTasks p cs) : tk.origin = some p := by
  simp only [spawnTasks, Multiset.mem_coe, List.mem_map] at h
  obtain ⟨c, _, rfl⟩ := h
  rfl

theorem causal_append (P : List (String × Option String)) (x : String × Option String)
    (hc : ∀ i : Fin P.length, ∀ pp, (P.get i).2 = some pp →
      ∃ j : Fin P.length, (j : ℕ) < (i : ℕ) ∧ (P.get j).1 = pp)
    (hx : ∀ pp, x.2 = some pp → ∃ q ∈ P, q.1 = pp) :
    ∀ i : Fin (P ++ [x]).length, ∀ pp, ((P ++ [x]).get i).2 = some pp →
      ∃ j : Fin (P ++ [x]).length, (j : ℕ) < (i : ℕ) ∧ ((P ++ [x]).get j).1 = pp := by
  intro i pp hi
  rcases lt_or_ge (i : ℕ) P.length with hlt | hge
  · have hgi : (P ++ [x]).get i = P.get ⟨i, hlt⟩ := by
      simp [List.get_eq_getElem, List.getElem_append_left hlt]
    rw [hgi] at hi
    obtain ⟨j, hj, hjv⟩ := hc ⟨i, hlt⟩ pp hi
    refine ⟨⟨j, lt_of_lt_of_le j.isLt (by simp)⟩, hj, ?_⟩
    simpa [List.get_eq_getElem, List.getElem_append_left j.isLt] using hjv
  · have hlen : (i : ℕ) = P.length := by
      have hi2 := i.isLt
      simp only [List.length_append, List.length_singleton] at hi2
      omega
    have hgi : (P ++ [x]).get i = x := by
      rw [List.get_eq_getElem]
      exact List.getElem_concat_length P x i.val hlen i.isLt
    rw [hgi] at hi
    obtain ⟨q, hqm, hq1⟩ := hx pp hi
    obtain ⟨n, hn⟩ := List.mem_iff_get.mp hqm
    refine ⟨⟨n, lt_of_lt_of_le n.isLt (by simp)⟩, by simp only [hlen]; exact n.isLt, ?_⟩
    have : (P ++ [x]).get ⟨n, lt_of_lt_of_le n.isLt (by simp)⟩ = P.get n := by
      simp [List.get_eq_getElem, List.getElem_append_left n.isLt]
    rw [this, hn, hq1]

theorem inv_init (cfg : WalkCfg) (root : String) (t : FNode) :
    Inv cfg root t (initState root t) := by
  refine ⟨?_, ?_, ?_, ?_, ?_, ?_, ?_⟩
  · simp [initState, tasksPub]
  · simp [initState, tasksErr]
  · simp [initState]
  · simp [initState]
  · simp [initState]
  · intro tk htk pp hpp
    simp only [initState, Multiset.mem_singleton] at htk
    rw [htk] at hpp
    simp at hpp
  · intro i pp _
    exact absurd i.isLt (by simp [initState])

theorem inv_step (cfg : WalkCfg) (root : String) (t : FNode) (s s' : MState)
    (hinv : Inv cfg root t s) (hstep : Step cfg s s') : Inv cfg root t s' := by
  cases hstep with
  | taskErr tk rest e htk hrun =>
    obtain ⟨hpub0, herr1⟩ := runNode_err_effects cfg tk.path tk.node e hrun
    have hp := hinv.pubCons
    have he := hinv.errCons
    rw [htk, tasksPub_cons, hpub0, zero_add] at hp
    rw [htk, tasksErr_cons, herr1] at he
    refine ⟨?_, ?_, hinv.hadIff, ?_, hinv.pubLink, ?_, hinv.causal⟩
    · exact hp
    · simp only [← Multiset.coe_add, Multiset.coe_singleton]
      rw [← he]; abel
    · intro hd
      exact absurd (hinv.doneEmpty hd).1 (by rw [htk]; simp)
    · intro tk' htk' pp hpp
      exact hinv.taskOrigin tk' (by rw [htk]; exact Multiset.mem_cons_of_mem htk') pp hpp
  | taskExcluded tk rest htk hrun =>
    obtain ⟨hpub0, herr0⟩ := runNode_excluded_effects cfg tk.path tk.node hrun
    have hp := hinv.pubCons
    have he := hinv.errCons
    rw [htk, tasksPub_cons, hpub0, zero_add] at hp
    rw [htk, tasksErr_cons, herr0, zero_add] at he
    refine ⟨hp, he, hinv.hadIff, ?_, hinv.pubLink, ?_, hinv.causal⟩
    · intro hd
      exact absurd (hinv.doneEmpty hd).1 (by rw [htk]; simp)
    · intro tk' htk' pp hpp
      exact hinv.taskOrigin tk' (by rw [htk]; exact Multiset.mem_cons_of_mem htk') pp hpp
  | taskPubFile tk rest htk hrun =>
    obtain ⟨hpub1, herr0⟩ := runNode_pubFile_effects cfg tk.path tk.node hrun
    have hp := hinv.pubCons
    have he := hinv.errCons
    rw [htk, tasksPub_cons, hpub1] at hp
    rw [htk, tasksErr_cons, herr0, zero_add] at he
    refine ⟨?_, he, hinv.hadIff, ?_, ?_, ?_, ?_⟩
    · simp only [← Multiset.coe_add, Multiset.coe_singleton]
      rw [← hp]; abel
    · intro hd
      exact absurd (hinv.doneEmpty hd).1 (by rw [htk]; simp)
    · simp only [List.map_append, List.map_cons, List.map_nil, hinv.pubLink]
      simp [List.append_assoc]
    · intro tk' htk' pp hpp
      obtain ⟨q, hq, hq1⟩ := hinv.taskOrigin tk'
        (by rw [htk]; exact Multiset.mem_cons_of_mem htk') pp hpp
      exact ⟨q, List.mem_append_left _ hq, hq1⟩
    · exact causal_append s.pubs (tk.path, tk.origin) hinv.causal
        (fun pp hpp =>
          hinv.taskOrigin tk (by rw [htk]; exact Multiset.mem_cons_self _ _) pp hpp)
  | taskPubDirFail tk rest e htk hrun =>
    obtain ⟨hpub1, herr1⟩ := runNode_pubDirFail_effects cfg tk.path tk.node e hrun
    have hp := hinv.pubCons
    have he := hinv.errCons
    rw [htk, tasksPub_cons, hpub1] at hp
    rw [htk, tasksErr_cons, herr1] at he
    refine ⟨?_, ?_, hinv.hadIff, ?_, ?_, ?_, ?_⟩
    · simp only [← Multiset.coe_add, Multiset.coe_singleton]
      rw [← hp]; abel
    · simp only [← Multiset.coe_add, Multiset.coe_singleton]
      rw [← he]; abel
    · intro hd
      exact absurd (hinv.doneEmpty hd).1 (by rw [htk]; simp)
    · simp only [List.map_append, List.map_cons, List.map_nil, hinv.pubLink]
      simp [List.append_assoc]
    · intro tk' htk' pp hpp
      obtain ⟨q, hq, hq1⟩ := hinv.taskOrigin tk'
        (by rw [htk]; exact Multiset.mem_cons_of_mem htk') pp hpp
      exact ⟨q, List.mem_append_left _ hq, hq1⟩
    · exact causal_append s.pubs (tk.path, tk.origin) hinv.causal
        (fun pp hpp =>
          hinv.taskOrigin tk (by rw [htk]; exact Multiset.mem_cons_self _ _) pp hpp)
  | taskPubDir tk rest cs htk hrun =>
    obtain ⟨hpub, herr⟩ := runNode_pubDir_effects cfg tk.path tk.node cs hrun
    have hp := hinv.pubCons
    have he := hinv.errCons
    rw [htk, tasksPub_cons, hpub] at hp
    rw [htk, tasksErr_cons, herr] at he
    refine ⟨?_, ?_, hinv.hadIff, ?_, ?_, ?_, ?_⟩
    · rw [tasksPub_add, tasksPub_spawn]
      simp only [← Multiset.coe_add, Multiset.coe_singleton]
      rw [← hp]
      simp only [← Multiset.singleton_add]
      abel
    · rw [tasksErr_add, tasksErr_spawn]
      rw [← he]; abel
    · intro hd
      exact absurd (hinv.doneEmpty hd).1 (by rw [htk]; simp)
    · simp only [List.map_append, List.map_cons, List.map_nil, hinv.pubLink]
      simp [List.append_assoc]
    · intro tk' htk' pp hpp
      rcases Multiset.mem_add.mp htk' with hrest | hspawn
      · obtain ⟨q, hq, hq1⟩ := hinv.taskOrigin tk'
          (by rw [htk]; exact Multiset.mem_cons_of_mem hrest) pp hpp
        exact ⟨q, List.mem_append_left _ hq, hq1⟩
      · have horig := spawnTasks_origin tk.path cs tk' hspawn
        rw [horig] at hpp
        refine ⟨(tk.path, tk.origin), List.mem_append_right _ (by simp), ?_⟩
        simpa using hpp
    · exact causal_append s.pubs (tk.path, tk.origin) hinv.causal
        (fun pp hpp =>
          hinv.taskOrigin tk (by rw [htk]; exact Multiset.mem_cons_self _ _) pp hpp)
  | visit p q hq hd =>
    have hp := hinv.pubCons
    rw [hq] at hp
    refine ⟨?_, hinv.errCons, hinv.hadIff, ?_, ?_, hinv.taskOrigin, hinv.causal⟩
    · simp only [← Multiset.cons_coe, ← Multiset.coe_add, Multiset.coe_singleton,
        Multiset.coe_nil] at hp ⊢
      rw [← hp]
      simp only [← Multiset.singleton_add]
      abel
    · intro h
      rw [hd] at h
      simp at h
    · rw [hinv.pubLink, hq, List.append_cons]
  | errRecv e q hq hd =>
    have he := hinv.errCons
    rw [hq] at he
    refine ⟨hinv.pubCons, ?_, ?_, ?_, hinv.pubLink, hinv.taskOrigin, hinv.causal⟩
    · simp only [← Multiset.cons_coe, ← Multiset.coe_add, Multiset.coe_singleton,
        Multiset.coe_nil] at he ⊢
      rw [← he]
      simp only [← Multiset.singleton_add]
      abel
    · simp
    · intro h
      rw [hd] at h
      simp at h
  | finish ht hq hd =>
    exact ⟨hinv.pubCons, hinv.errCons, hinv.hadIff, fun _ => ⟨ht, hq⟩,
      hinv.pubLink, hinv.taskOrigin, hinv.causal⟩

theorem inv_reach (cfg : WalkCfg) (root : String) (t : FNode) (s : MState)
    (h : Reach cfg (initState root t) s) : Inv cfg root t s := by
  induction h with
  | refl => exact inv_init cfg root t
  | tail _ hstep ih => exact inv_step cfg root t _ _ ih hstep

/-! ### Walks without faults or exclusions publish exactly the sequential walk -/

mutual

theorem pubPaths_eq_seqWalk (cfg : WalkCfg)
    (hd : ∀ q, cfg.dirEx q = some false) (hf : ∀ q, cfg.fileEx q = some false)
    (p : String) (t : FNode) (hff : faultFree t = true) :
    pubPaths cfg p t = ↑(seqWalk p t) := by
  cases t with
  | file nm infoF =>
    have h1 : infoF = false := by simpa [faultFree] using hff
    subst h1
    simp [pubPaths, seqWalk, hf]
  | dir nm infoF readF cs =>
    simp only [faultFree, Bool.and_eq_true, Bool.not_eq_eq_eq_not, Bool.not_true] at hff
    obtain ⟨⟨h1, h2⟩, h3⟩ := hff
    have hrec := pubPathsList_eq_seqWalkList cfg hd hf p cs h3
    simp [pubPaths, seqWalk, hd, h1, h2, hrec, ← Multiset.cons_coe]

theorem pubPathsList_eq_seqWalkList (cfg : WalkCfg)
    (hd : ∀ q, cfg.dirEx q = some false) (hf : ∀ q, cfg.fileEx q = some false)
    (p : String) (cs : List FNode) (hff : faultFreeList cs = true) :
    pubPathsList cfg p cs = ↑(seqWalkList p cs) := by
  cases cs with
  | nil => simp [pubPathsList, seqWalkList]
  | cons c cs2 =>
    simp only [faultFreeList, Bool.and_eq_true] at hff
    obtain ⟨h1, h2⟩ := hff
    have e1 := pubPaths_eq_seqWalk cfg hd hf (pjoin p c.name) c h1
    have e2 := pubPathsList_eq_seqWalkList cfg hd hf p cs2 h2
    simp [pubPathsList, seqWalkList, e1, e2, ← Multiset.coe_add]

end

/-! ### What a completed walk leaves behind -/

/-- In any completed (done) configuration, the multiset of visit-callback
invocations is exactly the publish multiset of the tree. -/
theorem visited_of_done (cfg : WalkCfg) (root : String) (t : FNode) (s : MState)
    (hr : Reach cfg (initState root t) s) (hd : s.done = true) :
    (s.visited : Multiset String) = pubPaths cfg root t := by
  have hinv := inv_reach cfg root t s hr
  obtain ⟨ht, hq⟩ := hinv.doneEmpty hd
  have hp := hinv.pubCons
  rw [ht, hq] at hp
  simpa [tasksPub] using hp

/-- In any completed configuration in which the consumer drained the error
channel before breaking, the error sink holds exactly the walk's errors. -/
theorem sink_of_done_drained (cfg : WalkCfg) (root : String) (t : FNode) (s : MState)
    (hr : Reach cfg (initState root t) s) (hd : s.done = true) (he : s.errQ = []) :
    (s.sink : Multiset WErr) = errPaths cfg root t := by
  have hinv := inv_reach cfg root t s hr
  obtain ⟨ht, _⟩ := hinv.doneEmpty hd
  have hp := hinv.errCons
  rw [ht, he] at hp
  simpa [tasksErr] using hp

/-! ### Reaching the concrete completed configurations -/

theorem exReach1 : Reach noExcludeCfg (initState "r" exTree1) exFinal1 :=
  Relation.ReflTransGen.head
    (Step.taskPubDir _ ⟨"r", exTree1, none⟩ 0 [.file "a" false] rfl rfl)
    (Relation.ReflTransGen.head
      (Step.taskPubFile _ ⟨pjoin "r" "a", .file "a" false, some "r"⟩ 0 rfl rfl)
      (Relation.ReflTransGen.head (Step.visit _ "r" [pjoin "r" "a"] rfl rfl)
        (Relation.ReflTransGen.head (Step.visit _ (pjoin "r" "a") [] rfl rfl)
          (Relation.ReflTransGen.head (Step.finish _ rfl rfl rfl)
            Relation.ReflTransGen.refl))))

theorem lostErrReach : Reach errCheckCfg (initState "r" errTree) lostErrFinal :=
  Relation.ReflTransGen.head
    (Step.taskErr _ ⟨"r", errTree, none⟩ 0 ⟨.exclCheck, "r"⟩ rfl rfl)
    (Relation.ReflTransGen.head (Step.finish _ rfl rfl rfl)
      Relation.ReflTransGen.refl)

theorem rootExcludedReach :
    Reach newConcurrentWalkerCfg (initState "/dev" devTree) rootExcludedFinal :=
  Relation.ReflTransGen.head
    (Step.taskExcluded _ ⟨"/dev", devTree, none⟩ 0 rfl rfl)
    (Relation.ReflTransGen.head (Step.finish _ rfl rfl rfl)
      Relation.ReflTransGen.refl)

/-! ### The semaphore invariant -/

theorem semInv (capacity : Nat) (s0 s : SemMState)
    (hr : SemReach capacity s0 s) (h0 : s0.inside ≤ capacity) :
    s.inside ≤ capacity := by
  induction hr with
  | refl => exact h0
  | tail _ hstep ih =>
    cases hstep with
    | enter hw hc => simp; omega
    | leave hi => simp; omega

/-! ### The claims -/

/-- C1: for every directory tree and a walker whose exclusion predicates
exclude nothing, the multiset of paths for which the visit callback is
invoked by a completed (non-cancelled) walk equals the multiset of paths
visited by a standard single-threaded recursive walk of the same tree,
root included. -/
theorem c1_completeness (cfg : WalkCfg) (root : String) (t : FNode) (s : MState)
    (hd : ∀ q, cfg.dirEx q = some false) (hf : ∀ q, cfg.fileEx q = some false)
    (hff : faultFree t = true)
    (hr : Reach cfg (initState root t) s) (hdone : s.done = true) :
    (s.visited : Multiset String) = ↑(seqWalk root t) := by
  rw [visited_of_done cfg root t s hr hdone]
  exact pubPaths_eq_seqWalk cfg hd hf root t hff

/-- Witness for C1 at the two-node tree `exTree1`. -/
theorem c1_completeness_witness :
    (∀ q, noExcludeCfg.dirEx q = some false) ∧
    (∀ q, noExcludeCfg.fileEx q = some false) ∧
    faultFree exTree1 = true ∧
    Reach noExcludeCfg (initState "r" exTree1) exFinal1 ∧
    exFinal1.done = true ∧
    (exFinal1.visited : Multiset String) = ↑(seqWalk "r" exTree1) :=
  ⟨fun _ => rfl, fun _ => rfl, rfl, exReach1, rfl,
    c1_completeness noExcludeCfg "r" exTree1 exFinal1
      (fun _ => rfl) (fun _ => rfl) rfl exReach1 rfl⟩

/-- C2: the code can complete a walk that produced exactly one per-node
error with `HadErrors()` still false and nothing written to the error
sink: after the failing task buffered its error on `errorCh` and the
monitor closed `pathInfoCh`, the consumer's select may take the
closed-channel branch and break, dropping the buffered error.  The claim
(and the `hadErrors` field's own comment) requires `HadErrors()` to be
true after `Wait()` returns. -/
theorem c2_error_lost_at_shutdown :
    Reach errCheckCfg (initState "r" errTree) lostErrFinal ∧
    lostErrFinal.done = true ∧
    lostErrFinal.hadErrors = false ∧
    lostErrFinal.sink = [] ∧
    errPaths errCheckCfg "r" errTree = {(⟨.exclCheck, "r"⟩ : WErr)} :=
  ⟨lostErrReach, rfl, rfl, rfl, rfl⟩

/-- C3: the number of directory reads concurrently past the semaphore
acquire never exceeds `min(1024, rlimit.Cur)`, the capacity computed once
at walk start; the acquire admits a read only below capacity, and
`workerReadDir` releases the acquired slot on every exit path (open
failure, read failure, success). -/
theorem c3_semaphore_bound (rlimitCur w0 : Nat) (s : SemMState)
    (hr : SemReach (maxActiveWorkers rlimitCur) ⟨w0, 0, 0⟩ s) :
    s.inside ≤ maxActiveWorkers rlimitCur ∧
    maxActiveWorkers rlimitCur ≤ 1024 ∧
    maxActiveWorkers rlimitCur ≤ rlimitCur ∧
    (∀ capacity held openOk readOk entries, held < capacity →
      semAcquire capacity held = some (held + 1) ∧
      ∃ r, workerReadDir capacity held openOk readOk entries = some (r, held)) := by
  refine ⟨semInv _ _ _ hr (by simp), by simp [maxActiveWorkers],
    by simp [maxActiveWorkers], ?_⟩
  intro capacity held openOk readOk entries hlt
  have ha : semAcquire capacity held = some (held + 1) := by simp [semAcquire, hlt]
  refine ⟨ha, ?_⟩
  cases openOk
  · exact ⟨.error ⟨.readDir, "open"⟩, by simp [workerReadDir, ha, semRelease]⟩
  · cases readOk
    · exact ⟨.error ⟨.readDir, "readdir"⟩, by simp [workerReadDir, ha, semRelease]⟩
    · exact ⟨.ok entries, by simp [workerReadDir, ha, semRelease]⟩

/-- Witness for C3: with `rlimit.Cur = 8`, two pending reads, one read
entering and finishing. -/
theorem c3_semaphore_bound_witness :
    SemReach (maxActiveWorkers 8) ⟨2, 0, 0⟩ ⟨1, 0, 1⟩ ∧
    ((⟨1, 0, 1⟩ : SemMState).inside ≤ maxActiveWorkers 8 ∧
     maxActiveWorkers 8 ≤ 1024 ∧
     maxActiveWorkers 8 ≤ 8 ∧
     (∀ capacity held openOk readOk entries, held < capacity →
       semAcquire capacity held = some (held + 1) ∧
       ∃ r, workerReadDir capacity held openOk readOk entries = some (r, held))) :=
  have hr : SemReach (maxActiveWorkers 8) ⟨2, 0, 0⟩ ⟨1, 0, 1⟩ :=
    Relation.ReflTransGen.head (SemStep.enter _ (by decide) (by decide))
      (Relation.ReflTransGen.head (SemStep.leave _ (by decide))
        Relation.ReflTransGen.refl)
  ⟨hr, c3_semaphore_bound 8 2 ⟨1, 0, 1⟩ hr⟩

/-- C4 counterexample: walking the root "/dev" with the default excluders
of `NewConcurrentWalker` — the root's info resolves, yet the walk
completes with no entry ever published and the visit callback never
invoked, because the root IS passed to the directory excluder. -/
theorem c4_counterexample :
    Reach newConcurrentWalkerCfg (initState "/dev" devTree) rootExcludedFinal ∧
    rootExcludedFinal.done = true ∧
    rootExcludedFinal.visited = [] ∧
    rootExcludedFinal.pubs = [] ∧
    devTree.infoFail = false :=
  ⟨rootExcludedReach, rfl, rfl, rfl, rfl⟩

/-- C4 amended: the root path is passed to the applicable exclusion
predicate like any other node; a stat-able root is published exactly when
its predicate returns `(false, nil)`, and when the predicate returns
`(true, nil)` for the root the walk publishes nothing and records no
error. -/
theorem c4_root_subject_to_exclusion (cfg : WalkCfg) (root : String) (t : FNode)
    (hinfo : t.infoFail = false) :
    ((if t.isDir then cfg.dirEx else cfg.fileEx) root = some false →
      root ∈ pubPaths cfg root t) ∧
    ((if t.isDir then cfg.dirEx else cfg.fileEx) root = some true →
      pubPaths cfg root t = 0 ∧ errPaths cfg root t = 0) := by
  cases t with
  | file nm infoF =>
    simp only [FNode.infoFail] at hinfo
    subst hinfo
    constructor
    · intro hp
      simp only [FNode.isDir, Bool.false_eq_true, if_false] at hp
      simp [pubPaths, hp]
    · intro hp
      simp only [FNode.isDir, Bool.false_eq_true, if_false] at hp
      simp [pubPaths, errPaths, hp]
  | dir nm infoF readF cs =>
    simp only [FNode.infoFail] at hinfo
    subst hinfo
    constructor
    · intro hp
      simp only [FNode.isDir, if_true] at hp
      cases readF <;> simp [pubPaths, hp]
    · intro hp
      simp only [FNode.isDir, if_true] at hp
      simp [pubPaths, errPaths, hp]

/-- Witness for the amended C4 at the root "/dev" under the default
excluders. -/
theorem c4_root_subject_to_exclusion_witness :
    devTree.infoFail = false ∧
    (if devTree.isDir then newConcurrentWalkerCfg.dirEx
      else newConcurrentWalkerCfg.fileEx) "/dev" = some true ∧
    (pubPaths newConcurrentWalkerCfg "/dev" devTree = 0 ∧
     errPaths newConcurrentWalkerCfg "/dev" devTree = 0) :=
  ⟨rfl, rfl,
    (c4_root_subject_to_exclusion newConcurrentWalkerCfg "/dev" devTree rfl).2 rfl⟩

/-- C5 counterexample: on an idle engine, a `StartWalking` whose root
cannot be stat-ed returns the Lstat error but leaves `inProgress = true`,
so a subsequent `StartWalking` with a valid root is rejected as
re-entrant. -/
theorem c5_counterexample :
    (startWalking envBadRoot idleWalker "/data").2 = .errLstat ∧
    (startWalking envBadRoot idleWalker "/data").1.inProgress = true ∧
    (startWalking envGood (startWalking envBadRoot idleWalker "/data").1 "/ok").2
      = .errInProgress :=
  ⟨rfl, rfl, rfl⟩

/-- C5 amended: a re-entrant `StartWalking` fails without touching the
engine state (the in-progress walk is undisturbed); a failure to stat the
root or to read the file limit also performs no walk, but it has already
set the in-progress flag (and overwritten `root`, cleared `hadErrors`), so
every subsequent `StartWalking` on the engine is rejected as re-entrant. -/
theorem c5_start_failure_state (env : StartEnv) (w : WalkerSt) (root : String) :
    (w.inProgress = true → startWalking env w root = (w, .errInProgress)) ∧
    (w.inProgress = false → env.lstatOk root = false →
      (startWalking env w root).2 = .errLstat ∧
      (startWalking env w root).1.inProgress = true ∧
      ∀ env2 root2,
        (startWalking env2 (startWalking env w root).1 root2).2 = .errInProgress) ∧
    (w.inProgress = false → env.lstatOk root = true → env.rlimitCur = none →
      (startWalking env w root).2 = .errRlimit ∧
      (startWalking env w root).1.inProgress = true ∧
      ∀ env2 root2,
        (startWalking env2 (startWalking env w root).1 root2).2 = .errInProgress) := by
  refine ⟨?_, ?_, ?_⟩
  · intro hw
    simp [startWalking, hw]
  · intro hw hl
    simp [startWalking, hw, hl]
  · intro hw hl hr
    simp [startWalking, hw, hl, hr]

/-- Witness for the amended C5: the failed-Lstat branch on an idle
engine. -/
theorem c5_start_failure_state_witness :
    idleWalker.inProgress = false ∧
    envBadRoot.lstatOk "/data" = false ∧
    ((startWalking envBadRoot idleWalker "/data").2 = .errLstat ∧
     (startWalking envBadRoot idleWalker "/data").1.inProgress = true ∧
     ∀ env2 root2,
       (startWalking env2 (startWalking envBadRoot idleWalker "/data").1 root2).2
         = .errInProgress) :=
  ⟨rfl, rfl, (c5_start_failure_state envBadRoot idleWalker "/data").2.1 rfl rfl⟩

/-- C6 counterexample: the excluders installed by `NewConcurrentWalker`
do not exclude nothing — the default file excluder excludes any path whose
base name is ".DS_Store" and the default directory excluder excludes
"/dev" and "/proc". -/
theorem c6_counterexample :
    newConcurrentWalkerCfg.fileEx "/tmp/.DS_Store" = some true ∧
    newConcurrentWalkerCfg.dirEx "/dev" = some true ∧
    newConcurrentWalkerCfg.dirEx "/proc" = some true :=
  ⟨rfl, rfl, rfl⟩

/-- C6 amended: the default excluders never return an error; the default
directory excluder excludes exactly "/dev" and "/proc", the default file
excluder excludes exactly the paths whose `filepath.Base` is ".DS_Store",
and both return `(false, nil)` on every other path. -/
theorem c6_default_excluders (p : String) :
    (∃ b, newConcurrentWalkerCfg.dirEx p = some b) ∧
    (∃ b, newConcurrentWalkerCfg.fileEx p = some b) ∧
    (newConcurrentWalkerCfg.dirEx p = some true ↔ p = "/dev" ∨ p = "/proc") ∧
    (newConcurrentWalkerCfg.fileEx p = some true ↔ filepathBase p = ".DS_Store") := by
  refine ⟨?_, ?_, ?_, ?_⟩
  · simp only [newConcurrentWalkerCfg, defaultDirExcluderMatch]
    split_ifs <;> exact ⟨_, rfl⟩
  · simp only [newConcurrentWalkerCfg, defaultFileExcluderMatch]
    split_ifs <;> exact ⟨_, rfl⟩
  · simp only [newConcurrentWalkerCfg, defaultDirExcluderMatch]
    split_ifs with h1 h2
    · simp [h1]
    · simp [h1, h2]
    · simp [h1, h2]
  · simp only [newConcurrentWalkerCfg, defaultFileExcluderMatch]
    split_ifs with h
    · simp [h]
    · simp [h]

/-- C7: a node whose applicable exclusion predicate returns `(true, nil)`
terminates silently: the task's outcome is the silent return, and the
whole subtree rooted there contributes no published entry and no error —
so nothing reaches the error sink and the had-errors flag is untouched on
its account. -/
theorem c7_exclusion_silent (cfg : WalkCfg) (p : String) (n : FNode)
    (hinfo : n.infoFail = false)
    (hpred : (if n.isDir then cfg.dirEx else cfg.fileEx) p = some true) :
    runNode cfg p n = .excluded ∧ pubPaths cfg p n = 0 ∧ errPaths cfg p n = 0 := by
  have hrun : runNode cfg p n = .excluded := by
    cases n with
    | file nm infoF =>
      simp only [FNode.infoFail] at hinfo
      subst hinfo
      simp only [FNode.isDir, Bool.false_eq_true, if_false] at hpred
      simp [runNode, hpred]
    | dir nm infoF readF cs =>
      simp only [FNode.infoFail] at hinfo
      subst hinfo
      simp only [FNode.isDir, if_true] at hpred
      simp [runNode, hpred]
  obtain ⟨h1, h2⟩ := runNode_excluded_effects cfg p n hrun
  exact ⟨hrun, h1, h2⟩

/-- Witness for C7: a ".DS_Store" file under the default excluders. -/
theorem c7_exclusion_silent_witness :
    (FNode.file ".DS_Store" false).infoFail = false ∧
    (if (FNode.file ".DS_Store" false).isDir then newConcurrentWalkerCfg.dirEx
      else newConcurrentWalkerCfg.fileEx) "/home/u/.DS_Store" = some true ∧
    (runNode newConcurrentWalkerCfg "/home/u/.DS_Store" (.file ".DS_Store" false)
        = .excluded ∧
     pubPaths newConcurrentWalkerCfg "/home/u/.DS_Store" (.file ".DS_Store" false) = 0 ∧
     errPaths newConcurrentWalkerCfg "/home/u/.DS_Store" (.file ".DS_Store" false) = 0) :=
  ⟨rfl, rfl,
    c7_exclusion_silent newConcurrentWalkerCfg "/home/u/.DS_Store"
      (.file ".DS_Store" false) rfl rfl⟩

/-- C8: in every reachable configuration the publish history is exactly
the consumer's view of `pathInfoCh` (visited prefix plus still-queued
suffix), every pending task spawned by a parent has that parent already
published, and every published entry spawned by a parent occurs strictly
after its parent's publish — a directory's entry is published before any
of its children's, with no ordering claimed among siblings. -/
theorem c8_parent_published_first (cfg : WalkCfg) (root : String) (t : FNode)
    (s : MState) (hr : Reach cfg (initState root t) s) :
    s.pubs.map Prod.fst = s.visited ++ s.pathQ ∧
    (∀ tk ∈ s.tasks, ∀ pp, tk.origin = some pp → ∃ q ∈ s.pubs, q.1 = pp) ∧
    ∀ i : Fin s.pubs.length, ∀ pp, (s.pubs.get i).2 = some pp →
      ∃ j : Fin s.pubs.length, (j : ℕ) < (i : ℕ) ∧ (s.pubs.get j).1 = pp :=
  ⟨(inv_reach cfg root t s hr).pubLink, (inv_reach cfg root t s hr).taskOrigin,
    (inv_reach cfg root t s hr).causal⟩

/-- Witness for C8 at the completed walk of `exTree1`. -/
theorem c8_parent_published_first_witness :
    Reach noExcludeCfg (initState "r" exTree1) exFinal1 ∧
    (exFinal1.pubs.map Prod.fst = exFinal1.visited ++ exFinal1.pathQ ∧
     (∀ tk ∈ exFinal1.tasks, ∀ pp, tk.origin = some pp →
        ∃ q ∈ exFinal1.pubs, q.1 = pp) ∧
     ∀ i : Fin exFinal1.pubs.length, ∀ pp, (exFinal1.pubs.get i).2 = some pp →
       ∃ j : Fin exFinal1.pubs.length, (j : ℕ) < (i : ℕ) ∧
         (exFinal1.pubs.get j).1 = pp) :=
  ⟨exReach1, c8_parent_published_first noExcludeCfg "r" exTree1 exFinal1 exReach1⟩

/-- C9: the consumer loop evaluates and discards the visit callback's
returned error: whatever the visitor returns, one `pathInfoCh` iteration
leaves the had-errors flag, the error sink and the loop-break flag
unchanged, appends the path to the visit history, and yields the same
state as a visitor that returns nil. -/
theorem c9_visitor_error_discarded (walkFunc : String → Option String)
    (s : ProcState) (p : String) :
    (processStep walkFunc s (.pathInfo p true)).hadErrors = s.hadErrors ∧
    (processStep walkFunc s (.pathInfo p true)).sink = s.sink ∧
    (processStep walkFunc s (.pathInfo p true)).broke = s.broke ∧
    (processStep walkFunc s (.pathInfo p true)).visited = s.visited ++ [p] ∧
    processStep walkFunc s (.pathInfo p true)
      = processStep (fun _ => none) s (.pathInfo p true) :=
  ⟨rfl, rfl, rfl, rfl, rfl⟩

/-- C10: a `StartWalking` rejected for re-entrancy returns nil for both
the done channel and the cancel function, while a `StartWalking` that
fails because the root cannot be stat-ed or the file limit cannot be read
returns a nil done channel alongside a non-nil cancel function. -/
theorem c10_start_failure_nil_returns (env : StartEnv) (w : WalkerSt) (root : String) :
    (w.inProgress = true →
      (startWalking env w root).2 = .errInProgress ∧
      doneChanNil (startWalking env w root).2 = true ∧
      cancelNil (startWalking env w root).2 = true) ∧
    (w.inProgress = false → env.lstatOk root = false →
      (startWalking env w root).2 = .errLstat ∧
      doneChanNil (startWalking env w root).2 = true ∧
      cancelNil (startWalking env w root).2 = false) ∧
    (w.inProgress = false → env.lstatOk root = true → env.rlimitCur = none →
      (startWalking env w root).2 = .errRlimit ∧
      doneChanNil (startWalking env w root).2 = true ∧
      cancelNil (startWalking env w root).2 = false) := by
  refine ⟨?_, ?_, ?_⟩
  · intro hw
    simp [startWalking, hw, doneChanNil, cancelNil]
  · intro hw hl
    simp [startWalking, hw, hl, doneChanNil, cancelNil]
  · intro hw hl hr
    simp [startWalking, hw, hl, hr, doneChanNil, cancelNil]

/-- Witness for C10: the busy-engine branch and the failed-rlimit branch
at concrete inputs. -/
theorem c10_start_failure_nil_returns_witness :
    busyWalker.inProgress = true ∧
    ((startWalking envGood busyWalker "/x").2 = .errInProgress ∧
     doneChanNil (startWalking envGood busyWalker "/x").2 = true ∧
     cancelNil (startWalking envGood busyWalker "/x").2 = true) ∧
    idleWalker.inProgress = false ∧
    envNoRlimit.lstatOk "/y" = true ∧
    envNoRlimit.rlimitCur = none ∧
    ((startWalking envNoRlimit idleWalker "/y").2 = .errRlimit ∧
     doneChanNil (startWalking envNoRlimit idleWalker "/y").2 = true ∧
     cancelNil (startWalking envNoRlimit idleWalker "/y").2 = false) :=
  ⟨rfl, (c10_start_failure_nil_returns envGood busyWalker "/x").1 rfl, rfl, rfl, rfl,
    (c10_start_failure_nil_returns envNoRlimit idleWalker "/y").2.2 rfl rfl rfl⟩

end File
end GoAJ
